import Mathlib

/-!
Verification development for the service-caller widget
(`src/rqt_service_caller/service_caller_widget.py`).

The Python code is shallowly embedded: messages become an inductive `Msg`
(genpy message instances have `__slots__`/`_slot_types`; lists and scalar
values are the other cases), the mutable in-place updates of
`fill_message_slots` become explicit state passing, and every fallible
Python operation (an uncaught exception) is modelled by `Option`, with
`none` standing for an escaped exception.  Machine integers appear as
`Int` (Python integers are unbounded).  Recursion that is unbounded in
Python (the array growth `while` loop, recursion into freshly constructed
messages) takes an explicit fuel argument; running out of fuel yields
`none`, so any `some` result is fuel-independent behaviour of the code.
Python `eval` is kept abstract as a parameter `ev : String → Int → Option
PyVal` (the text and the value bound to `i`); concrete test evaluators
instantiate it.  Floating-point fields are outside the model.
-/

/-- Scalar Python values that can sit in message slots or come out of
`eval`.  (`float` values are not modelled.) -/
inductive PyVal where
  | vint : Int → PyVal
  | vstr : String → PyVal
  | vbool : Bool → PyVal

/-- A Python object reachable from a service request: a genpy message
(`__slots__` + `_slot_types`: type name and ordered fields, each field a
slot name, its declared type string, and its value), a list slot, or a
scalar. -/
inductive Msg where
  | prim : PyVal → Msg
  | arr : List Msg → Msg
  | record : String → List (String × String × Msg) → Msg

/-- The `expressions` dict of the widget: insertion-ordered map from slot
path to expression text. -/
abbrev ExprMap := List (String × String)

/-- Python substring test `needle in haystack`, on character lists. -/
def isSubstrList (n : List Char) : List Char → Bool
  | [] => n.isPrefixOf []
  | c :: cs => n.isPrefixOf (c :: cs) || isSubstrList n cs

/-- Python `a in b` for strings (substring containment). -/
def pyIn (needle haystack : String) : Bool :=
  isSubstrList needle.toList haystack.toList

/-- String prefix test, used to state the spec's "has ... as a prefix"
notion of a matching key (the code itself uses `pyIn`). -/
def pyStartsWith (p s : String) : Bool :=
  p.toList.isPrefixOf s.toList

/-- Path of a named child slot: `parent + "/" + fieldName`
(spec operation `childFieldPath`; code: `topic_name + '/' + slot_name`). -/
def childFieldPath (parent fieldName : String) : String :=
  parent ++ "/" ++ fieldName

/-- Path of an array element: `parent + "[" + index + "]"`
(spec operation `childIndexPath`; code: `slot_key + "[" + str(i) + "]"`). -/
def childIndexPath (parent : String) (i : Nat) : String :=
  parent ++ "[" ++ toString i ++ "]"

/-- Python slice `s[:-2]`, as used for `message._slot_types[a][:-2]`. -/
def dropLast2 (s : String) : String :=
  String.mk s.toList.dropLast.dropLast

/-- Python `s[-2:] == "[]"`: does a type string denote an array type. -/
def endsWithBrackets (s : String) : Bool :=
  List.isSuffixOf ['[', ']'] s.toList

/-- Conversion of the digits of a character list to a number, failing on
any non-digit or on the empty list (the digits part of Python `int(str)`). -/
def digitsToNat : List Char → Option Nat
  | [] => none
  | [c] => if c.isDigit then some (c.toNat - 48) else none
  | c :: cs =>
    if c.isDigit then
      (digitsToNat cs).map (fun n => (c.toNat - 48) * 10 ^ cs.length + n)
    else none

/-- Python `int(s)` on a string: optional surrounding spaces, optional
sign, then decimal digits; any other shape raises (is `none`). -/
def pyIntParse (s : String) : Option Int :=
  let cs := (s.toList.dropWhile (· = ' ')).reverse.dropWhile (· = ' ') |>.reverse
  match cs with
  | '-' :: rest => (digitsToNat rest).map (fun n => -(n : Int))
  | '+' :: rest => (digitsToNat rest).map (fun n => (n : Int))
  | _ => (digitsToNat cs).map (fun n => (n : Int))

/-- Python `str(v)` for the modelled scalar values. -/
def pyStr : PyVal → String
  | .vint n => toString n
  | .vstr s => s
  | .vbool b => if b then "True" else "False"

/-- Python truthiness `bool(v)` for the modelled scalar values. -/
def pyTruthy : PyVal → Bool
  | .vint n => decide (n ≠ 0)
  | .vstr s => decide (s ≠ "")
  | .vbool b => b

/-- The `slot_type` computed in `fill_message_slots` (lines 264-268):
`slot._type` for message slots, else Python `type(slot)`. -/
inductive SlotType where
  | tint
  | tstr
  | tbool
  | tlist
  | tmsg : String → SlotType

/-- Lines 264-268: `slot_type = slot._type if hasattr(slot, '_type') else
type(slot)`. -/
def slotTypeOf : Msg → SlotType
  | .record tn _ => .tmsg tn
  | .arr _ => .tlist
  | .prim (.vint _) => .tint
  | .prim (.vstr _) => .tstr
  | .prim (.vbool _) => .tbool

/-- Python call `slot_type(value)` (line 289): conversion of a value to
the slot's type, `none` when the call raises.  `int(...)` parses strings
and maps booleans; `str(...)` and `bool(...)` always succeed; `list(...)`
succeeds only on strings (yielding the list of one-character strings);
a message slot's `slot_type` is the `_type` string, and calling a string
raises `TypeError`. -/
def coerceTo : SlotType → PyVal → Option Msg
  | .tint, .vint n => some (.prim (.vint n))
  | .tint, .vbool b => some (.prim (.vint (if b then 1 else 0)))
  | .tint, .vstr s => (pyIntParse s).map (fun n => .prim (.vint n))
  | .tstr, v => some (.prim (.vstr (pyStr v)))
  | .tbool, v => some (.prim (.vbool (pyTruthy v)))
  | .tlist, .vstr s => some (.arr (s.toList.map (fun c => .prim (.vstr (String.mk [c])))))
  | .tlist, _ => none
  | .tmsg _, _ => none

/-- Diagnostic of line 298 (`failed to evaluate expression`). -/
def diagEvalFail (expression : String) : String :=
  "ServiceCaller.fill_message_slots(): failed to evaluate expression: " ++ expression

/-- Diagnostic of line 296 (`can not convert expression to slot type`). -/
def diagConvFail : String :=
  "ServiceCaller.fill_message_slots(): can not convert expression to slot type"

/-- Lines 275-300, `_evaluate_expression`: evaluate the text with `eval`
(abstract parameter `ev`, fed the current counter as the variable `i`);
on failure fall back to the literal text and mark the evaluation failed;
then convert to the slot type; on conversion failure return `none` with
one warning (the evaluation-failure warning when the evaluation had
failed, else the conversion-failure warning).  A successful conversion
returns the value with no warning. -/
def evaluate_expression (ev : String → Int → Option PyVal) (counter : Int)
    (expression : String) (slot_type : SlotType) : Option Msg × List String :=
  let evalRes := ev expression counter
  let successful_eval := evalRes.isSome
  let value : PyVal :=
    match evalRes with
    | some v => v
    | none => .vstr expression
  match coerceTo slot_type value with
  | some m => (some m, [])
  | none => (none, [if successful_eval then diagConvFail else diagEvalFail expression])

/-- Lines 263-273 of `fill_message_slots`: compute the slot type from the
current slot value, evaluate the expression, and assign the result to the
slot only when it is not `None`. -/
def fill_expression_slot (ev : String → Int → Option PyVal) (counter : Int)
    (expression : String) (slot : Msg) : Msg × List String :=
  let slot_type := slotTypeOf slot
  match evaluate_expression ev counter expression slot_type with
  | (some m, ds) => (m, ds)
  | (none, ds) => (slot, ds)

/-- The message-class registry behind `roslib.message.get_message_class`:
record type name to the ordered list of (slot name, slot type string). -/
abbrev Env := List (String × List (String × String))

/-- Default scalar for a primitive ROS type name, `none` for non-primitive
names.  (Floating-point types are outside the model.) -/
def primDefault : String → Option PyVal
  | "string" => some (.vstr "")
  | "bool" => some (.vbool false)
  | "int8" => some (.vint 0)
  | "int16" => some (.vint 0)
  | "int32" => some (.vint 0)
  | "int64" => some (.vint 0)
  | "uint8" => some (.vint 0)
  | "uint16" => some (.vint 0)
  | "uint32" => some (.vint 0)
  | "uint64" => some (.vint 0)
  | "byte" => some (.vint 0)
  | "char" => some (.vint 0)
  | _ => none

/-- Default-constructed value for a slot type string: `[]` for array
types, the zero scalar for primitive names, and a recursively
default-constructed record for registered message types; fuel bounds the
nesting depth. -/
def defaultValue (env : Env) : Nat → String → Option Msg
  | 0 => fun _ => none
  | f + 1 => fun t =>
    if endsWithBrackets t then some (.arr [])
    else
      match primDefault t with
      | some v => some (.prim v)
      | none =>
        match List.lookup t env with
        | some flds =>
          (flds.mapM (fun p => (defaultValue env f p.2).map (fun m => (p.1, p.2, m)))).map
            (Msg.record t)
        | none => none

/-- Line 247, `roslib.message.get_message_class(vector_type)()`: only
registered record types yield an instance; any other name makes the call
raise (is `none`). -/
def messageClassDefault (env : Env) (f : Nat) (t : String) : Option Msg :=
  match List.lookup t env with
  | some _ => defaultValue env f t
  | none => none

/-- Lines 239-251, the `for key in expressions` body of the array growth
scan: at the first key containing `slotstr` while `vec_found` is still
false, construct a default element of the slot's element type
(`_slot_types[a][:-2]`), recursively fill it at path `slotstr` with
counter literal `0`, and append it to the slot's list (appending to a
non-list raises).  `fill_` is the recursive `fill_message_slots` instance
and `constr` the message-class construction. -/
def scanKeys (fill_ : Msg → String → ExprMap → Int → Option (Msg × List String))
    (constr : String → Option Msg) (slotstr slotTy : String) (exprs : ExprMap) :
    List (String × String) → Msg → Bool → List String → Option (Msg × Bool × List String)
  | [], sv, vecFound, ds => some (sv, vecFound, ds)
  | kv :: rest, sv, vecFound, ds =>
    if pyIn slotstr kv.1 && !vecFound then
      match constr (dropLast2 slotTy) with
      | none => none
      | some elem0 =>
        match fill_ elem0 slotstr exprs 0 with
        | none => none
        | some (elem, ds2) =>
          match sv with
          | .arr xs => scanKeys fill_ constr slotstr slotTy exprs rest (.arr (xs ++ [elem])) true (ds ++ ds2)
          | _ => none
    else scanKeys fill_ constr slotstr slotTy exprs rest sv vecFound ds

/-- Lines 233-252, the `while (vec_found)` array growth scan: for
`i = 0, 1, 2, ...` run one pass over the expression keys at indexed path
`childIndexPath slotKey i`; stop at the first pass that found no key.
The fuel bounds the number of passes that found a key. -/
def scanLoop (fill_ : Msg → String → ExprMap → Int → Option (Msg × List String))
    (constr : String → Option Msg) (slotKey slotTy : String) (exprs : ExprMap) :
    Nat → Nat → Msg → Option (Msg × List String)
  | 0, i, sv =>
    match scanKeys fill_ constr (childIndexPath slotKey i) slotTy exprs exprs sv false [] with
    | none => none
    | some (sv1, found, ds) => if found then none else some (sv1, ds)
  | fw + 1, i, sv =>
    match scanKeys fill_ constr (childIndexPath slotKey i) slotTy exprs exprs sv false [] with
    | none => none
    | some (sv1, found, ds) =>
      if found then
        match scanLoop fill_ constr slotKey slotTy exprs fw (i + 1) sv1 with
        | none => none
        | some (sv2, ds2) => some (sv2, ds ++ ds2)
      else some (sv1, ds)

/-- The per-slot body of the `for slot_name in message.__slots__` loop
(lines 231-273): run the array growth scan, then (lines 254-257) recurse
into the slot when its path has no map entry, (lines 259-261) skip an
empty expression, and otherwise (lines 263-273) evaluate and assign. -/
def processFields (fill_ : Msg → String → ExprMap → Int → Option (Msg × List String))
    (constr : String → Option Msg) (ev : String → Int → Option PyVal)
    (path : String) (exprs : ExprMap) (counter : Int) (fw : Nat) :
    List (String × String × Msg) → Option (List (String × String × Msg) × List String)
  | [] => some ([], [])
  | (sn, sty, sv) :: rest =>
    let slotKey := childFieldPath path sn
    match scanLoop fill_ constr slotKey sty exprs fw 0 sv with
    | none => none
    | some (sv1, ds1) =>
      let step : Option (Msg × List String) :=
        match List.lookup slotKey exprs with
        | none => fill_ sv1 slotKey exprs counter
        | some expression =>
          if expression.length = 0 then some (sv1, [])
          else some (fill_expression_slot ev counter expression sv1)
      match step with
      | none => none
      | some (sv2, ds2) =>
        match processFields fill_ constr ev path exprs counter fw rest with
        | none => none
        | some (rest2, ds3) => some ((sn, sty, sv2) :: rest2, ds1 ++ ds2 ++ ds3)

/-- Lines 228-273, `fill_message_slots(message, topic_name, expressions,
counter)`: a message without `__slots__` returns unchanged; a record
processes each declared slot in order.  The result is the updated message
paired with the emitted warnings; `none` is an escaped exception or
exhausted fuel. -/
def fill_message_slots (ev : String → Int → Option PyVal) (env : Env) :
    Nat → Msg → String → ExprMap → Int → Option (Msg × List String)
  | 0, msg, _, _, _ =>
    match msg with
    | .record _ _ => none
    | m => some (m, [])
  | f + 1, msg, path, exprs, counter =>
    match msg with
    | .record tn fields =>
      match processFields (fill_message_slots ev env f) (messageClassDefault env f) ev
          path exprs counter f fields with
      | none => none
      | some (fields2, ds) => some (.record tn fields2, ds)
    | m => some (m, [])

/-- Does any key of the map contain the indexed path of `slotKey` at
index `i` as a substring — the test the growth scan applies at index `i`. -/
def idxMatches (exprs : ExprMap) (slotKey : String) (i : Nat) : Bool :=
  exprs.any (fun kv => pyIn (childIndexPath slotKey i) kv.1)

/-- Value of a named field of a record message. -/
def getFieldList (name : String) : List (String × String × Msg) → Option Msg
  | [] => none
  | (n, _, v) :: rest => if n = name then some v else getFieldList name rest

/-- Value of a named field of a message (`none` off records). -/
def getField (name : String) : Msg → Option Msg
  | .record _ fields => getFieldList name fields
  | _ => none

/-- Length of a list slot. -/
def arrLen : Msg → Option Nat
  | .arr xs => some xs.length
  | _ => none

/-- Depth of record nesting of a message, the fuel needed to traverse it. -/
def msgDepth : Msg → Nat
  | .prim _ => 0
  | .arr _ => 0
  | .record _ fields => 1 + msgDepthFields fields
where
  msgDepthFields : List (String × String × Msg) → Nat
    | [] => 0
    | f :: fs => max (msgDepth f.2.2) (msgDepthFields fs)

/-- Concrete test evaluator: models Python `eval` on the inputs the test
scenarios use — the bare variable `i` (bound to the counter) and integer
literals; everything else raises. -/
def evalStd (s : String) (i : Int) : Option PyVal :=
  if s = "i" then some (.vint i) else (pyIntParse s).map .vint

/-- Test registry: a request type with a record-array slot `items` and an
`int32` slot `n`; `Item` has one `int32` slot `x`. -/
def envStd : Env :=
  [("SReq", [("items", "Item[]"), ("n", "int32")]), ("Item", [("x", "int32")])]

/-- Default-constructed `SReq` request instance. -/
def reqStd : Msg :=
  .record "SReq" [("items", "Item[]", .arr []), ("n", "int32", .prim (.vint 0))]

/-- Apply an `Option`-valued function to each list element, failing if any
application fails (the sequencing of fallible recursive calls). -/
def mapOption (g : α → Option β) : List α → Option (List β)
  | [] => some []
  | x :: xs =>
    match g x, mapOption g xs with
    | some y, some ys => some (y :: ys)
    | _, _ => none

/-- Like `mapOption` with the running index, modelling
`for index, slot in enumerate(message)`. -/
def mapOptionIdx (g : Nat → α → Option β) : Nat → List α → Option (List β)
  | _, [] => some []
  | i, x :: xs =>
    match g i x, mapOptionIdx g (i + 1) xs with
    | some y, some ys => some (y :: ys)
    | _, _ => none

/-- A `QTreeWidgetItem` of the request/response trees: the three column
texts (`service`, `type`, `expression`), the `Qt.UserRole` data (the full
path), the editable flag, and the ordered children. -/
inductive Node where
  | mk : String → String → String → String → Bool → List Node → Node

/-- Column 0 text of a tree item (the display name). -/
def Node.serviceText : Node → String
  | .mk s _ _ _ _ _ => s

/-- Column 1 text of a tree item (the type name). -/
def Node.typeText : Node → String
  | .mk _ t _ _ _ _ => t

/-- Column 2 text of a tree item (the expression display). -/
def Node.exprText : Node → String
  | .mk _ _ e _ _ _ => e

/-- The `Qt.UserRole` data of a tree item: the full topic path. -/
def Node.dataPath : Node → String
  | .mk _ _ _ p _ _ => p

/-- The `Qt.ItemIsEditable` flag of a tree item. -/
def Node.editable : Node → Bool
  | .mk _ _ _ _ e _ => e

/-- The ordered children of a tree item. -/
def Node.children : Node → List Node
  | .mk _ _ _ _ _ cs => cs

/-- Python `topic_name.split('/')[-1]`: the text after the last slash. -/
def lastSegment (s : String) : String :=
  String.mk ((s.toList.reverse.takeWhile (· ≠ '/')).reverse)

/-- Python `type_name.split('[', 1)[0]`: the text before the first `[`. -/
def splitBracketHead (s : String) : String :=
  String.mk (s.toList.takeWhile (· ≠ '['))

/-- Python `repr` of a modelled scalar value. -/
def pyReprPrim : PyVal → String
  | .vint n => toString n
  | .vstr s => "'" ++ s ++ "'"
  | .vbool b => if b then "True" else "False"

/-- Python `repr` of a modelled message value, with fuel for list nesting.
The record case is a placeholder: projection never applies `repr` to a
record, because records are caught by the `__slots__` branch first. -/
def pyRepr : Nat → Msg → String
  | _, .prim v => pyReprPrim v
  | _, .arr [] => "[]"
  | 0, _ => ""
  | f + 1, .arr (x :: xs) =>
    "[" ++ String.intercalate ", " ((x :: xs).map (pyRepr f)) ++ "]"
  | _ + 1, .record tn _ => "<" ++ tn ++ ">"

/-- Is the message a genpy record (has `__slots__`). -/
def isRecordMsg : Msg → Bool
  | .record _ _ => true
  | _ => false

/-- Lines 140-170, `_recursive_create_widget_items(parent, topic_name,
type_name, message, is_editable)`: build one tree item.  The display name
is the full `topic_name` at the root and the last path segment elsewhere;
records recurse per declared slot at `childFieldPath`; a non-empty list
whose first element is a record recurses per element at `childIndexPath`
with the element type `type_name.split('[', 1)[0]`; anything else is a
leaf showing `repr(message)` in the expression column.  Fuel bounds the
recursion depth (`none` only on exhausted fuel). -/
def recursive_create_widget_items :
    Nat → Bool → String → String → Msg → Bool → Option Node
  | 0, _, _, _, _, _ => none
  | f + 1, isRoot, topicName, typeName, msg, ed =>
    let topicText := if isRoot then topicName else lastSegment topicName
    match msg with
    | .record _ fields =>
      (mapOption
        (fun p =>
          recursive_create_widget_items f false (childFieldPath topicName p.1) p.2.1 p.2.2 ed)
        fields).map
        (fun cs => Node.mk topicText typeName "" topicName ed cs)
    | .arr (e0 :: rest) =>
      if isRecordMsg e0 then
        (mapOptionIdx
          (fun i el =>
            recursive_create_widget_items f false (childIndexPath topicName i)
              (splitBracketHead typeName) el ed)
          0 (e0 :: rest)).map
          (fun cs => Node.mk topicText typeName "" topicName ed cs)
      else some (Node.mk topicText typeName (pyRepr f (.arr (e0 :: rest))) topicName ed [])
    | m => some (Node.mk topicText typeName (pyRepr f m) topicName ed [])

/-- A `QTreeWidgetItem` as read back by `_recursive_message_from_tree`:
column texts 0 (name), 1 (type) and 2 (expression), plus children. -/
inductive TItem where
  | mk : String → String → String → List TItem → TItem

/-- Column 0 text (the slot name). -/
def TItem.name : TItem → String
  | .mk n _ _ _ => n

/-- Column 1 text (the type name). -/
def TItem.ty : TItem → String
  | .mk _ t _ _ => t

/-- Column 2 text (the expression text). -/
def TItem.expr2 : TItem → String
  | .mk _ _ e _ => e

/-- The item's children. -/
def TItem.children : TItem → List TItem
  | .mk _ _ _ cs => cs

/-- Python `setattr(msg, name, v)` on a record's field list: replaces the
named field's value; a name that is not a slot raises (is `none`). -/
def setFieldList (name : String) (v : Msg) :
    List (String × String × Msg) → Option (List (String × String × Msg))
  | [] => none
  | (n, ty, old) :: rest =>
    if n = name then some ((n, ty, v) :: rest)
    else (setFieldList name v rest).map (fun r => (n, ty, old) :: r)

/-- Python `setattr(msg, name, v)`: only records have settable slots. -/
def setField (name : String) (v : Msg) : Msg → Option Msg
  | .record tn fields => (setFieldList name v fields).map (.record tn)
  | _ => none

/-- Lines 223-225 of `_recursive_message_from_tree`: for each child item,
build its message recursively and `setattr` it on `msg` by the child's
column-0 name.  `build` is the recursive call at the next fuel level. -/
def setChildrenFromTree (build : TItem → Option Msg) : Msg → List TItem → Option Msg
  | m, [] => some m
  | m, c :: cs =>
    match build c with
    | none => none
    | some sub =>
      match setField c.name sub m with
      | none => none
      | some m2 => setChildrenFromTree build m2 cs

/-- Lines 189-226, `_recursive_message_from_tree(item)`: an item whose
type text ends in `[]` becomes the list of its recursively built children;
otherwise `get_message_class(item.text(1))()` is tried (the registry
`env`), and on `ValueError` the primitive branch converts `item.text(2)`
by the type name — `string` passes the text through (the two-quote text
`''` becomes empty), `int32`/`int8` parse, `uint32`/`uint8` parse and
clamp negatives to `0`, `bool` takes Python truthiness of the text, and
any other name leaves `msg` unbound (raises, is `none`; `float64` is
outside the model).  Then each child is set on the result by name. -/
def recursive_message_from_tree (env : Env) : Nat → TItem → Option Msg
  | 0, _ => none
  | f + 1, it =>
    if endsWithBrackets it.ty then
      (mapOption (recursive_message_from_tree env f) it.children).map Msg.arr
    else
      let base : Option Msg :=
        match List.lookup it.ty env with
        | some _ => defaultValue env (f + 1) it.ty
        | none =>
          if it.ty = "string" then
            if it.expr2 = "''" then some (.prim (.vstr "")) else some (.prim (.vstr it.expr2))
          else if it.ty = "int32" then (pyIntParse it.expr2).map (fun n => .prim (.vint n))
          else if it.ty = "int8" then (pyIntParse it.expr2).map (fun n => .prim (.vint n))
          else if it.ty = "uint32" then
            (pyIntParse it.expr2).map (fun n => .prim (.vint (if n < 0 then 0 else n)))
          else if it.ty = "uint8" then
            (pyIntParse it.expr2).map (fun n => .prim (.vint (if n < 0 then 0 else n)))
          else if it.ty = "bool" then some (.prim (.vbool (it.expr2 != "")))
          else none
      match base with
      | none => none
      | some m0 => setChildrenFromTree (recursive_message_from_tree env f) m0 it.children

/-- The state the remove action could touch: the request tree and the
expression map of the active service session. -/
structure MenuState where
  tree : Node
  expressions : ExprMap

/-- Lines 400-403 of `_show_context_menu`: when the clicked item has a
parent whose type text ends in `[]` and the chosen action is the Remove
action, the handler only emits the warning `Removing not yet supported!`
and performs no mutation.  `parentTy` is the parent item's type text
(`none` when the item has no parent). -/
def show_context_menu_remove (parentTy : Option String) (st : MenuState) :
    MenuState × List String :=
  match parentTy with
  | some pty =>
    if endsWithBrackets pty then (st, ["Removing not yet supported!"])
    else (st, [])
  | none => (st, [])

/-! Helper lemmas about the array growth scan. -/

/-- Once `vec_found` is set in a pass of the key loop, the rest of the
pass changes nothing. -/
theorem scanKeys_true (fl : Msg → String → ExprMap → Int → Option (Msg × List String))
    (cs : String → Option Msg) (ss ty : String) (exprs : ExprMap) :
    ∀ (ks : List (String × String)) (sv : Msg) (ds : List String),
      scanKeys fl cs ss ty exprs ks sv true ds = some (sv, true, ds) := by
  intro ks
  induction ks with
  | nil => intro sv ds; rfl
  | cons kv rest ih => intro sv ds; simp [scanKeys, ih]

/-- A pass of the key loop over keys none of which contain `ss` is the
identity with `vec_found` still false. -/
theorem scanKeys_nomatch (fl : Msg → String → ExprMap → Int → Option (Msg × List String))
    (cs : String → Option Msg) (ss ty : String) (exprs : ExprMap) :
    ∀ (ks : List (String × String)) (sv : Msg) (ds : List String),
      (∀ kv ∈ ks, pyIn ss kv.1 = false) →
      scanKeys fl cs ss ty exprs ks sv false ds = some (sv, false, ds) := by
  intro ks
  induction ks with
  | nil => intro sv ds _; rfl
  | cons kv rest ih =>
    intro sv ds h
    have h1 : pyIn ss kv.1 = false := h kv (by simp)
    simp only [scanKeys, h1, Bool.false_and, if_neg, Bool.false_eq_true,
      not_false_eq_true]
    exact ih sv ds (fun k hk => h k (by simp [hk]))

/-- Characterisation of one pass of the key loop started with `vec_found`
false: the resulting flag is exactly "some key contains `ss`", a pass that
found nothing changed nothing, and a pass that found a key appended
exactly one element to a list slot. -/
theorem scanKeys_char (fl : Msg → String → ExprMap → Int → Option (Msg × List String))
    (cs : String → Option Msg) (ss ty : String) (exprs : ExprMap) :
    ∀ (ks : List (String × String)) (sv : Msg) (ds : List String) (sv1 : Msg)
      (found : Bool) (ds1 : List String),
      scanKeys fl cs ss ty exprs ks sv false ds = some (sv1, found, ds1) →
      (found = ks.any (fun kv => pyIn ss kv.1)) ∧
      (found = false → sv1 = sv ∧ ds1 = ds) ∧
      (∀ xs, sv = .arr xs → found = true → ∃ e, sv1 = .arr (xs ++ [e])) := by
  intro ks
  induction ks with
  | nil =>
    intro sv ds sv1 found ds1 h
    simp only [scanKeys] at h
    cases h
    exact ⟨by simp, fun _ => ⟨rfl, rfl⟩, fun xs hx hf => absurd hf (by simp)⟩
  | cons kv rest ih =>
    intro sv ds sv1 found ds1 h
    by_cases hp : pyIn ss kv.1 = true
    · simp only [scanKeys, hp, Bool.not_false, Bool.true_and, if_pos] at h
      rcases hc : cs (dropLast2 ty) with _ | elem0
      · simp only [hc] at h
        simp at h
      · simp only [hc] at h
        rcases hf : fl elem0 ss exprs 0 with _ | ⟨elem, ds2⟩
        · simp only [hf] at h
          simp at h
        · simp only [hf] at h
          cases sv with
          | arr xs =>
            simp only [scanKeys_true] at h
            cases h
            refine ⟨by simp [hp], fun hff => absurd hff (by simp), fun xs0 hx0 _ => ?_⟩
            obtain rfl : xs0 = xs := by injection hx0.symm
            exact ⟨elem, rfl⟩
          | prim v => simp at h
          | record tn fields => simp at h
    · have hp0 : pyIn ss kv.1 = false := by simpa using hp
      simp only [scanKeys, hp0, Bool.false_and, if_neg, Bool.false_eq_true,
        not_false_eq_true] at h
      obtain ⟨h1, h2, h3⟩ := ih sv ds sv1 found ds1 h
      exact ⟨by simp [hp0, h1], h2, h3⟩

/-- The growth scan at an index no key matches returns the slot unchanged
with no warnings, at any remaining fuel. -/
theorem scanLoop_stop (fl : Msg → String → ExprMap → Int → Option (Msg × List String))
    (cs : String → Option Msg) (slotKey ty : String) (exprs : ExprMap) :
    ∀ (fw i : Nat) (sv : Msg), idxMatches exprs slotKey i = false →
      scanLoop fl cs slotKey ty exprs fw i sv = some (sv, []) := by
  intro fw i sv h
  have hall : ∀ kv ∈ exprs, pyIn (childIndexPath slotKey i) kv.1 = false := by
    intro kv hkv
    simp only [idxMatches, List.any_eq_false] at h
    simpa using h kv hkv
  cases fw <;>
    simp [scanLoop, scanKeys_nomatch fl cs (childIndexPath slotKey i) ty exprs exprs sv [] hall]

/-- A successful growth scan whose first `n` indices all match and whose
index `i0 + n` does not appends exactly `n` elements. -/
theorem scanLoop_count (fl : Msg → String → ExprMap → Int → Option (Msg × List String))
    (cs : String → Option Msg) (slotKey ty : String) (exprs : ExprMap) :
    ∀ (n i0 fw : Nat) (xs : List Msg) (res : Msg) (dsr : List String),
      (∀ j, j < n → idxMatches exprs slotKey (i0 + j) = true) →
      idxMatches exprs slotKey (i0 + n) = false →
      scanLoop fl cs slotKey ty exprs fw i0 (.arr xs) = some (res, dsr) →
      ∃ xs2, res = .arr xs2 ∧ xs2.length = xs.length + n := by
  intro n
  induction n with
  | zero =>
    intro i0 fw xs res dsr _ hstop h
    rw [scanLoop_stop fl cs slotKey ty exprs fw i0 (.arr xs) (by simpa using hstop)] at h
    cases h
    exact ⟨xs, rfl, by simp⟩
  | succ n ih =>
    intro i0 fw xs res dsr hall hstop h
    have h0 : idxMatches exprs slotKey i0 = true := by
      have := hall 0 (by omega)
      simpa using this
    rcases hk : scanKeys fl cs (childIndexPath slotKey i0) ty exprs exprs (.arr xs) false []
      with _ | ⟨sv1, found, ds⟩
    · cases fw <;> simp [scanLoop, hk] at h
    · have hchar := scanKeys_char fl cs (childIndexPath slotKey i0) ty exprs exprs
        (.arr xs) [] sv1 found ds hk
      have hfound : found = true := by
        rw [hchar.1]
        simpa [idxMatches] using h0
      obtain ⟨e, rfl⟩ := hchar.2.2 xs rfl hfound
      cases fw with
      | zero => simp [scanLoop, hk, hfound] at h
      | succ fw =>
        simp only [scanLoop, hk, hfound, if_true] at h
        rcases hs : scanLoop fl cs slotKey ty exprs fw (i0 + 1) (.arr (xs ++ [e]))
          with _ | ⟨sv2, ds2⟩
        · simp only [hs] at h
          simp at h
        · simp only [hs] at h
          have hnext : ∀ j, j < n → idxMatches exprs slotKey (i0 + 1 + j) = true := by
            intro j hj
            have heq : i0 + 1 + j = i0 + (j + 1) := by omega
            rw [heq]
            exact hall (j + 1) (by omega)
          have hstop2 : idxMatches exprs slotKey (i0 + 1 + n) = false := by
            have heq : i0 + 1 + n = i0 + (n + 1) := by omega
            rw [heq]
            exact hstop
          obtain ⟨xs2, hx2, hlen⟩ := ih (i0 + 1) fw (xs ++ [e]) sv2 ds2 hnext hstop2 hs
          cases h
          exact ⟨xs2, hx2, by simp at hlen; omega⟩

/-- A field's nesting depth is bounded by the field list's. -/
theorem msgDepthFields_le (fld : String × String × Msg) :
    ∀ (fields : List (String × String × Msg)), fld ∈ fields →
      msgDepth fld.2.2 ≤ msgDepth.msgDepthFields fields := by
  intro fields
  induction fields with
  | nil => intro h; cases h
  | cons f fs ih =>
    intro h
    rw [List.mem_cons] at h
    rcases h with rfl | h
    · simp [msgDepth.msgDepthFields]
    · exact le_trans (ih h) (by simp [msgDepth.msgDepthFields])

/-- With an empty expression map, the per-slot loop leaves every field and
emits no warning, provided the recursive calls do. -/
theorem processFields_empty (fl : Msg → String → ExprMap → Int → Option (Msg × List String))
    (cs : String → Option Msg) (ev : String → Int → Option PyVal)
    (path : String) (counter : Int) (fw : Nat) :
    ∀ (fields : List (String × String × Msg)),
      (∀ fld ∈ fields, fl fld.2.2 (childFieldPath path fld.1) [] counter = some (fld.2.2, [])) →
      processFields fl cs ev path [] counter fw fields = some (fields, []) := by
  intro fields
  induction fields with
  | nil => intro _; rfl
  | cons fld rest ih =>
    intro h
    obtain ⟨sn, sty, sv⟩ := fld
    have hscan : scanLoop fl cs (childFieldPath path sn) sty [] fw 0 sv = some (sv, []) :=
      scanLoop_stop fl cs (childFieldPath path sn) sty [] fw 0 sv (by simp [idxMatches])
    have hfill : fl sv (childFieldPath path sn) [] counter = some (sv, []) :=
      h (sn, sty, sv) (by simp)
    simp only [processFields, hscan, List.lookup_nil, hfill,
      ih (fun f hf => h f (by simp [hf]))]
    rfl

/-! Claim theorems. -/

/-- C1, counterexample: on the spec's own example — expression keys
`svc/items[0]/x ↦ "1"` and `svc/items[2]/x ↦ "3"`, a gap at index 1 —
`fill_message_slots` reconstructs an `items` array of length 1, not 3:
the growth scan stops at index 1, where no key matches, so the index-2
expression never produces an element. -/
theorem fill_c1_counterexample :
    fill_message_slots evalStd envStd 6 reqStd "svc"
        [("svc/items[0]/x", "1"), ("svc/items[2]/x", "3")] 0 =
      some (.record "SReq"
        [("items", "Item[]", .arr [.record "Item" [("x", "int32", .prim (.vint 1))]]),
         ("n", "int32", .prim (.vint 0))], []) ∧
    ((getField "items" (.record "SReq"
        [("items", "Item[]", .arr [.record "Item" [("x", "int32", .prim (.vint 1))]]),
         ("n", "int32", .prim (.vint 0))])).bind arrLen = some 1 ∧ (1 : Nat) ≠ 3) :=
  ⟨rfl, rfl, by decide⟩

/-- C1, amended: with keys at indices 0 and 2 and no key at index 1, the
reconstructed `items` array has length 1 — index 0 holds the value 1 of
its expression and the index-2 expression is ignored, because the growth
scan stops at the first index with no matching key. -/
theorem fill_c1_amended :
    fill_message_slots evalStd envStd 6 reqStd "svc"
        [("svc/items[0]/x", "1"), ("svc/items[2]/x", "3")] 0 =
      some (.record "SReq"
        [("items", "Item[]", .arr [.record "Item" [("x", "int32", .prim (.vint 1))]]),
         ("n", "int32", .prim (.vint 0))], []) := rfl

/-- C2, counterexample: with session counter 5, the leaf `x` of the
appended array element whose expression is the bare variable `i`
evaluates to 0, not 5 — the recursion into appended elements passes the
literal counter 0 (line 248) — while the same expression on the direct
slot `n` does see 5. -/
theorem fill_c2_counterexample :
    fill_message_slots evalStd envStd 6 reqStd "svc" [("svc/items[0]/x", "i")] 5 =
      some (.record "SReq"
        [("items", "Item[]", .arr [.record "Item" [("x", "int32", .prim (.vint 0))]]),
         ("n", "int32", .prim (.vint 0))], []) ∧
    fill_message_slots evalStd envStd 6 reqStd "svc" [("svc/n", "i")] 5 =
      some (.record "SReq"
        [("items", "Item[]", .arr []),
         ("n", "int32", .prim (.vint 5))], []) ∧
    (0 : Int) ≠ 5 :=
  ⟨rfl, rfl, by decide⟩

/-- C2, amended: for every counter value, leaves of appended array
elements are evaluated with counter 0 — the array-element recursion does
not thread the caller's counter — while a direct leaf of the message sees
the caller's counter unchanged. -/
theorem fill_c2_amended (c : Int) :
    fill_message_slots evalStd envStd 6 reqStd "svc" [("svc/items[0]/x", "i")] c =
      some (.record "SReq"
        [("items", "Item[]", .arr [.record "Item" [("x", "int32", .prim (.vint 0))]]),
         ("n", "int32", .prim (.vint 0))], []) ∧
    fill_message_slots evalStd envStd 6 reqStd "svc" [("svc/n", "i")] c =
      some (.record "SReq"
        [("items", "Item[]", .arr []),
         ("n", "int32", .prim (.vint c))], []) :=
  ⟨rfl, rfl⟩

/-- C3, counterexample: the key `xxsvc/items[0]/x` does not have the
indexed path `svc/items[0]` as a prefix, yet the growth scan treats
index 0 as occupied and appends an element — the code tests substring
containment, not prefix. -/
theorem fill_c3_counterexample :
    fill_message_slots evalStd envStd 6 reqStd "svc" [("xxsvc/items[0]/x", "1")] 0 =
      some (.record "SReq"
        [("items", "Item[]", .arr [.record "Item" [("x", "int32", .prim (.vint 0))]]),
         ("n", "int32", .prim (.vint 0))], []) ∧
    pyStartsWith (childIndexPath (childFieldPath "svc" "items") 0) "xxsvc/items[0]/x" = false :=
  ⟨rfl, rfl⟩

/-- C3, amended: in the array growth scan an index `i` is considered
occupied if and only if some key of the expression map contains
`childIndexPath slotKey i` as a substring; a pass that found a key
appends exactly one element, and the scan stops — appending nothing and
emitting nothing — at the first index for which no key contains the
indexed path. -/
theorem fill_c3_amended (fl : Msg → String → ExprMap → Int → Option (Msg × List String))
    (cs : String → Option Msg) (slotKey ty : String) (exprs : ExprMap)
    (i fw : Nat) (sv sv1 : Msg) (found : Bool) (ds1 : List String) :
    (scanKeys fl cs (childIndexPath slotKey i) ty exprs exprs sv false [] =
        some (sv1, found, ds1) →
      found = idxMatches exprs slotKey i) ∧
    (∀ xs, sv = .arr xs →
      scanKeys fl cs (childIndexPath slotKey i) ty exprs exprs sv false [] =
        some (sv1, true, ds1) → ∃ e, sv1 = .arr (xs ++ [e])) ∧
    (idxMatches exprs slotKey i = false →
      scanLoop fl cs slotKey ty exprs fw i sv = some (sv, [])) := by
  refine ⟨fun h => ?_, fun xs hx h => ?_, fun h => scanLoop_stop fl cs slotKey ty exprs fw i sv h⟩
  · have hchar := scanKeys_char fl cs (childIndexPath slotKey i) ty exprs exprs sv [] sv1
      found ds1 h
    simpa [idxMatches] using hchar.1
  · exact (scanKeys_char fl cs (childIndexPath slotKey i) ty exprs exprs sv [] sv1
      true ds1 h).2.2 xs hx rfl

/-- C3, witness: the amended characterisation instantiated on a one-key
map matching index 0 of `svc/items`. -/
theorem fill_c3_amended_witness :
    (true = idxMatches [("svc/items[0]/x", "1")] "svc/items" 0) ∧
    (∃ e, Msg.arr [Msg.record "Item" [("x", "int32", .prim (.vint 1))]] =
      Msg.arr ([] ++ [e])) := by
  have h := fill_c3_amended (fill_message_slots evalStd envStd 4)
    (messageClassDefault envStd 4) "svc/items" "Item[]" [("svc/items[0]/x", "1")] 0 2
    (.arr []) (.arr [Msg.record "Item" [("x", "int32", .prim (.vint 1))]]) true []
  exact ⟨h.1 rfl, h.2.1 [] rfl rfl⟩

/-- C4: in `_recursive_message_from_tree`, coercing a negative parsed
value to the unsigned kinds `uint32` or `uint8` yields 0 — a successful
result, neither a failure nor a wrapped-around value. -/
theorem recursive_message_from_tree_uint_clamp (env : Env) (f : Nat) (nm s : String)
    (n : Int) (hparse : pyIntParse s = some n) (hneg : n < 0) :
    (List.lookup "uint32" env = none →
      recursive_message_from_tree env (f + 1) (.mk nm "uint32" s []) =
        some (.prim (.vint 0))) ∧
    (List.lookup "uint8" env = none →
      recursive_message_from_tree env (f + 1) (.mk nm "uint8" s []) =
        some (.prim (.vint 0))) := by
  constructor <;> intro hl <;>
    simp [recursive_message_from_tree, TItem.ty, TItem.expr2, TItem.children, hl, hparse,
      hneg, setChildrenFromTree,
      show endsWithBrackets "uint32" = false from by decide,
      show endsWithBrackets "uint8" = false from by decide]

/-- C4, witness: the text `-5` on a `uint32` and on a `uint8` leaf both
yield 0. -/
theorem recursive_message_from_tree_uint_clamp_witness :
    pyIntParse "-5" = some (-5) ∧ (-5 : Int) < 0 ∧
    recursive_message_from_tree [] 1 (.mk "f" "uint32" "-5" []) = some (.prim (.vint 0)) ∧
    recursive_message_from_tree [] 1 (.mk "f" "uint8" "-5" []) = some (.prim (.vint 0)) := by
  have h := recursive_message_from_tree_uint_clamp [] 0 "f" "-5" (-5) (by decide) (by decide)
  exact ⟨by decide, by decide, h.1 rfl, h.2 rfl⟩

/-- C5: evaluation is two-stage — when `eval` fails the literal text is
the value and conversion is attempted on it (the evaluation failure only
selects the diagnostic, it does not abort); when conversion fails the
result is `None` with one diagnostic; and a `None` result makes
`fill_message_slots` skip the assignment, leaving the slot at its prior
value. -/
theorem evaluate_expression_two_stage (ev : String → Int → Option PyVal) (counter : Int)
    (expression : String) (st : SlotType) (slot : Msg) :
    (ev expression counter = none →
      evaluate_expression ev counter expression st =
        (match coerceTo st (.vstr expression) with
         | some m => (some m, [])
         | none => (none, [diagEvalFail expression]))) ∧
    (∀ v, ev expression counter = some v → coerceTo st v = none →
      evaluate_expression ev counter expression st = (none, [diagConvFail])) ∧
    ((evaluate_expression ev counter expression (slotTypeOf slot)).1 = none →
      fill_expression_slot ev counter expression slot =
        (slot, (evaluate_expression ev counter expression (slotTypeOf slot)).2)) := by
  refine ⟨fun h => ?_, fun v hv hc => ?_, fun h => ?_⟩
  · cases hcc : coerceTo st (.vstr expression) <;>
      simp [evaluate_expression, h, hcc]
  · simp [evaluate_expression, hv, hc]
  · rcases he : evaluate_expression ev counter expression (slotTypeOf slot) with ⟨ov, ds⟩
    rw [he] at h
    simp only at h
    subst h
    simp [fill_expression_slot, he]

/-- C5, witness: the unparseable text `][` falls back to the literal,
fails integer conversion and leaves the slot unchanged with the
evaluation-failure diagnostic; the evaluable text `7` against a message
slot type fails conversion with the conversion-failure diagnostic. -/
theorem evaluate_expression_two_stage_witness :
    (evaluate_expression evalStd 0 "][" .tint = (none, [diagEvalFail "]["])) ∧
    (evaluate_expression evalStd 0 "7" (.tmsg "X") = (none, [diagConvFail])) ∧
    (fill_expression_slot evalStd 0 "][" (.prim (.vint 3)) =
      (.prim (.vint 3), [diagEvalFail "]["])) := by
  have h1 := (evaluate_expression_two_stage evalStd 0 "][" .tint (.prim (.vint 3))).1 rfl
  have h2 := (evaluate_expression_two_stage evalStd 0 "7" (.tmsg "X")
    (.prim (.vint 3))).2.1 (.vint 7) rfl rfl
  have h3 := (evaluate_expression_two_stage evalStd 0 "][" .tint (.prim (.vint 3))).2.2 rfl
  exact ⟨h1.trans rfl, h2, h3.trans rfl⟩

/-- C6: when the expression map's entry for a field's path is the empty
string (and no indexed key triggers the growth scan for that field), the
per-slot loop performs no evaluation, no conversion and no assignment for
that field, emits no diagnostic, and the field keeps the value it had. -/
theorem processFields_empty_expression
    (fl : Msg → String → ExprMap → Int → Option (Msg × List String))
    (cs : String → Option Msg) (ev : String → Int → Option PyVal)
    (path : String) (exprs : ExprMap) (counter : Int) (fw : Nat)
    (sn sty : String) (sv : Msg) (rest : List (String × String × Msg))
    (hlook : List.lookup (childFieldPath path sn) exprs = some "")
    (hscan : ∀ kv ∈ exprs, pyIn (childIndexPath (childFieldPath path sn) 0) kv.1 = false) :
    processFields fl cs ev path exprs counter fw ((sn, sty, sv) :: rest) =
      (processFields fl cs ev path exprs counter fw rest).map
        (fun r => ((sn, sty, sv) :: r.1, r.2)) := by
  have hstop : idxMatches exprs (childFieldPath path sn) 0 = false := by
    simp only [idxMatches, List.any_eq_false]
    intro kv hkv
    simp [hscan kv hkv]
  have hsl := scanLoop_stop fl cs (childFieldPath path sn) sty exprs fw 0 sv hstop
  simp only [processFields, hsl, hlook]
  rcases hrest : processFields fl cs ev path exprs counter fw rest with _ | ⟨rest2, ds3⟩ <;>
    simp

/-- C6, witness: an empty-string entry for the `int32` slot `n` leaves
the slot at 0 with no diagnostic. -/
theorem processFields_empty_expression_witness :
    processFields (fill_message_slots evalStd envStd 3) (messageClassDefault envStd 3)
        evalStd "svc" [("svc/n", "")] 7 3 [("n", "int32", .prim (.vint 0))] =
      (processFields (fill_message_slots evalStd envStd 3) (messageClassDefault envStd 3)
        evalStd "svc" [("svc/n", "")] 7 3 []).map
        (fun r => (("n", "int32", Msg.prim (.vint 0)) :: r.1, r.2)) := by
  exact processFields_empty_expression (fill_message_slots evalStd envStd 3)
    (messageClassDefault envStd 3) evalStd "svc" [("svc/n", "")] 7 3 "n" "int32"
    (.prim (.vint 0)) [] rfl (by decide)

/-- C7: reconstruction with an empty expression map returns the message
unchanged with no diagnostics, for every message, path and counter (and
hence for any number of repeated invocations), given fuel covering the
message's nesting depth. -/
theorem fill_message_slots_empty (ev : String → Int → Option PyVal) (env : Env) :
    ∀ (fuel : Nat) (msg : Msg) (path : String) (counter : Int),
      msgDepth msg ≤ fuel →
      fill_message_slots ev env fuel msg path [] counter = some (msg, []) := by
  intro fuel
  induction fuel with
  | zero =>
    intro msg path counter hd
    cases msg with
    | prim v => rfl
    | arr xs => rfl
    | record tn fields => simp [msgDepth] at hd
  | succ f ih =>
    intro msg path counter hd
    cases msg with
    | prim v => rfl
    | arr xs => rfl
    | record tn fields =>
      have hflds : ∀ fld ∈ fields,
          fill_message_slots ev env f fld.2.2 (childFieldPath path fld.1) [] counter =
            some (fld.2.2, []) := by
        intro fld hfld
        apply ih
        have h1 := msgDepthFields_le fld fields hfld
        simp only [msgDepth] at hd
        omega
      simp only [fill_message_slots,
        processFields_empty (fill_message_slots ev env f) (messageClassDefault env f) ev
          path counter f fields hflds]

/-- C7, witness: the default `SReq` request is returned unchanged by a
reconstruction with an empty map at counter 7. -/
theorem fill_message_slots_empty_witness :
    msgDepth reqStd ≤ 3 ∧
    fill_message_slots evalStd envStd 3 reqStd "svc" [] 7 = some (reqStd, []) :=
  ⟨by decide, fill_message_slots_empty evalStd envStd 3 reqStd "svc" 7 (by decide)⟩

/-- (Helper) Pointwise reading of a successful `mapOption`. -/
theorem mapOption_some_spec (g : α → Option β) :
    ∀ (xs : List α) (ys : List β), mapOption g xs = some ys →
      ys.length = xs.length ∧
      ∀ (i : Nat) (h1 : i < xs.length) (h2 : i < ys.length),
        g (xs.get ⟨i, h1⟩) = some (ys.get ⟨i, h2⟩) := by
  intro xs
  induction xs with
  | nil =>
    intro ys h
    simp only [mapOption] at h
    cases h
    exact ⟨rfl, fun i h1 h2 => absurd h1 (by simp)⟩
  | cons x xs ih =>
    intro ys h
    rcases hg : g x with _ | y <;> rw [mapOption, hg] at h
    · simp at h
    · rcases hm : mapOption g xs with _ | ys0 <;> rw [hm] at h
      · simp at h
      · cases h
        obtain ⟨hlen, hpt⟩ := ih ys0 hm
        refine ⟨by simp [hlen], fun i h1 h2 => ?_⟩
        cases i with
        | zero => simpa using hg
        | succ i => simpa using hpt i (by simpa using h1) (by simpa using h2)

/-- (Helper) Pointwise reading of a successful `mapOptionIdx`. -/
theorem mapOptionIdx_some_spec (g : Nat → α → Option β) :
    ∀ (xs : List α) (i0 : Nat) (ys : List β), mapOptionIdx g i0 xs = some ys →
      ys.length = xs.length ∧
      ∀ (i : Nat) (h1 : i < xs.length) (h2 : i < ys.length),
        g (i0 + i) (xs.get ⟨i, h1⟩) = some (ys.get ⟨i, h2⟩) := by
  intro xs
  induction xs with
  | nil =>
    intro i0 ys h
    simp only [mapOptionIdx] at h
    cases h
    exact ⟨rfl, fun i h1 h2 => absurd h1 (by simp)⟩
  | cons x xs ih =>
    intro i0 ys h
    rcases hg : g i0 x with _ | y <;> rw [mapOptionIdx, hg] at h
    · simp at h
    · rcases hm : mapOptionIdx g (i0 + 1) xs with _ | ys0 <;> rw [hm] at h
      · simp at h
      · cases h
        obtain ⟨hlen, hpt⟩ := ih (i0 + 1) ys0 hm
        refine ⟨by simp [hlen], fun i h1 h2 => ?_⟩
        cases i with
        | zero => simpa using hg
        | succ i =>
          have heq : i0 + (i + 1) = i0 + 1 + i := by omega
          rw [heq]
          simpa using hpt i (by simpa using h1) (by simpa using h2)

/-- C8: tree projection gives every item the full topic name as display
text at the root and the last path segment elsewhere; a record item
recurses per declared field in order at `childFieldPath` with an empty
expression column; a non-empty list headed by a record recurses per
element in order at `childIndexPath` with the element type
`split('[', 1)[0]`; and any scalar becomes a childless leaf showing the
value's `repr` in the expression column. -/
theorem recursive_create_widget_items_spec (f : Nat) (isRoot : Bool)
    (path ty : String) (msg : Msg) (ed : Bool) (node : Node)
    (h : recursive_create_widget_items (f + 1) isRoot path ty msg ed = some node) :
    (node.serviceText = if isRoot then path else lastSegment path) ∧
    node.typeText = ty ∧ node.dataPath = path ∧ node.editable = ed ∧
    (∀ tn fields, msg = .record tn fields →
      node.exprText = "" ∧ node.children.length = fields.length ∧
      ∀ (i : Nat) (h1 : i < fields.length) (h2 : i < node.children.length),
        recursive_create_widget_items f false
          (childFieldPath path (fields.get ⟨i, h1⟩).1)
          (fields.get ⟨i, h1⟩).2.1 (fields.get ⟨i, h1⟩).2.2 ed =
          some (node.children.get ⟨i, h2⟩)) ∧
    (∀ e0 rest, msg = .arr (e0 :: rest) → isRecordMsg e0 = true →
      node.exprText = "" ∧ node.children.length = (e0 :: rest).length ∧
      ∀ (i : Nat) (h1 : i < (e0 :: rest).length) (h2 : i < node.children.length),
        recursive_create_widget_items f false (childIndexPath path i)
          (splitBracketHead ty) ((e0 :: rest).get ⟨i, h1⟩) ed =
          some (node.children.get ⟨i, h2⟩)) ∧
    (∀ v, msg = .prim v → node.exprText = pyReprPrim v ∧ node.children = []) := by
  cases msg with
  | prim v =>
    simp only [recursive_create_widget_items] at h
    cases h
    refine ⟨rfl, rfl, rfl, rfl, fun tn fields hx => by simp at hx,
      fun e0 rest hx => by simp at hx, fun v2 hx => ?_⟩
    obtain rfl : v2 = v := by injection hx.symm
    exact ⟨by simp [Node.exprText, pyRepr], rfl⟩
  | record tn fields =>
    simp only [recursive_create_widget_items] at h
    rcases hm : mapOption
        (fun p => recursive_create_widget_items f false (childFieldPath path p.1)
          p.2.1 p.2.2 ed) fields with _ | cs <;> rw [hm] at h
    · simp at h
    · simp only [Option.map_some'] at h
      cases h
      obtain ⟨hlen, hpt⟩ := mapOption_some_spec _ fields cs hm
      refine ⟨rfl, rfl, rfl, rfl, fun tn2 fields2 hx => ?_,
        fun e0 rest hx => by simp at hx, fun v hx => by simp at hx⟩
      injection hx with a b
      subst a
      subst b
      exact ⟨rfl, by simpa [Node.children] using hlen,
        fun i h1 h2 => hpt i h1 (by simpa using h2)⟩
  | arr xs =>
    cases xs with
    | nil =>
      simp only [recursive_create_widget_items] at h
      cases h
      exact ⟨rfl, rfl, rfl, rfl, fun tn fields hx => by simp at hx,
        fun e0 rest hx => by simp at hx, fun v hx => by simp at hx⟩
    | cons e0 rest =>
      simp only [recursive_create_widget_items] at h
      by_cases hr : isRecordMsg e0 = true
      · rw [if_pos hr] at h
        rcases hm : mapOptionIdx
            (fun i el => recursive_create_widget_items f false (childIndexPath path i)
              (splitBracketHead ty) el ed) 0 (e0 :: rest) with _ | cs <;> rw [hm] at h
        · simp at h
        · simp only [Option.map_some'] at h
          cases h
          obtain ⟨hlen, hpt⟩ := mapOptionIdx_some_spec _ (e0 :: rest) 0 cs hm
          refine ⟨rfl, rfl, rfl, rfl, fun tn fields hx => by simp at hx,
            fun e02 rest2 hx _ => ?_, fun v hx => by simp at hx⟩
          injection hx with a
          injection a with a1 a2
          subst a1
          subst a2
          exact ⟨rfl, by simpa [Node.children] using hlen,
            fun i h1 h2 => by simpa using hpt i h1 (by simpa using h2)⟩
      · rw [if_neg hr] at h
        cases h
        refine ⟨rfl, rfl, rfl, rfl, fun tn fields hx => by simp at hx,
          fun e02 rest2 hx hr2 => ?_, fun v hx => by simp at hx⟩
        injection hx with a
        injection a with a1 a2
        subst a1
        exact absurd hr2 hr

/-- C8, witness: projecting a one-field request at the root keeps the
full service name as display text and yields one child. -/
theorem recursive_create_widget_items_spec_witness :
    ((Node.mk "/svc" "SReq" "" "/svc" true
        [Node.mk "a" "int32" "0" "/svc/a" true []]).serviceText =
      if (true : Bool) then "/svc" else lastSegment "/svc") ∧
    (Node.mk "/svc" "SReq" "" "/svc" true
        [Node.mk "a" "int32" "0" "/svc/a" true []]).children.length = 1 := by
  have h := recursive_create_widget_items_spec 2 true "/svc" "SReq"
    (.record "SReq" [("a", "int32", .prim (.vint 0))]) true
    (Node.mk "/svc" "SReq" "" "/svc" true [Node.mk "a" "int32" "0" "/svc/a" true []]) rfl
  have h5 := h.2.2.2.2.1 "SReq" [("a", "int32", .prim (.vint 0))] rfl
  exact ⟨h.1, by simpa using h5.2.1⟩

/-- C9: triggering the Remove action on an element of an array node
reports `Removing not yet supported!` and performs no removal — the
session state (tree and expression map) is returned unchanged and the
report is never empty. -/
theorem show_context_menu_remove_unsupported (st : MenuState) (pty : String)
    (h : endsWithBrackets pty = true) :
    show_context_menu_remove (some pty) st = (st, ["Removing not yet supported!"]) ∧
    (show_context_menu_remove (some pty) st).1 = st ∧
    (show_context_menu_remove (some pty) st).2 ≠ [] := by
  simp [show_context_menu_remove, h]

/-- C9, witness: the Remove action on a child of an `Item[]` node. -/
theorem show_context_menu_remove_unsupported_witness :
    show_context_menu_remove (some "Item[]") ⟨Node.mk "i" "Item" "" "/s/v[0]" true [], []⟩ =
      (⟨Node.mk "i" "Item" "" "/s/v[0]" true [], []⟩, ["Removing not yet supported!"]) :=
  (show_context_menu_remove_unsupported ⟨Node.mk "i" "Item" "" "/s/v[0]" true [], []⟩
    "Item[]" (by decide)).1

/-- C10: one pass of the key loop appends at most one element however
many keys match the scanned index, and a successful growth scan whose
consecutive indices `0, …, n-1` each have at least one matching key and
whose index `n` has none appends exactly `n` elements. -/
theorem fill_c10_append_count (fl : Msg → String → ExprMap → Int → Option (Msg × List String))
    (cs : String → Option Msg) (ss slotKey ty : String) (exprs : ExprMap)
    (ks : List (String × String)) (xs xs2 : List Msg) (ds ds1 : List String)
    (found : Bool) (n fw : Nat) (res : Msg) (dsr : List String) :
    (scanKeys fl cs ss ty exprs ks (.arr xs) false ds = some (.arr xs2, found, ds1) →
      xs2.length ≤ xs.length + 1) ∧
    ((∀ j, j < n → idxMatches exprs slotKey j = true) →
     idxMatches exprs slotKey n = false →
     scanLoop fl cs slotKey ty exprs fw 0 (.arr xs) = some (res, dsr) →
     ∃ xs3, res = .arr xs3 ∧ xs3.length = xs.length + n) := by
  constructor
  · intro h
    have hchar := scanKeys_char fl cs ss ty exprs ks (.arr xs) ds (.arr xs2) found ds1 h
    cases found with
    | false =>
      obtain ⟨h1, _⟩ := hchar.2.1 rfl
      obtain rfl : xs2 = xs := by injection h1
      omega
    | true =>
      obtain ⟨e, he⟩ := hchar.2.2 xs rfl rfl
      obtain rfl : xs2 = xs ++ [e] := by injection he
      simp
  · intro h1 h2 h3
    exact scanLoop_count fl cs slotKey ty exprs n 0 fw xs res dsr
      (fun j hj => by simpa using h1 j hj) (by simpa using h2) h3

/-- C10, witness: two distinct keys match index 0 of `svc/items`, yet the
pass appends one element, and the full scan appends exactly one. -/
theorem fill_c10_append_count_witness :
    ((([Msg.record "Item" [("x", "int32", .prim (.vint 1))]] : List Msg).length ≤
      ([] : List Msg).length + 1) ∧
    (∃ xs3, Msg.arr [Msg.record "Item" [("x", "int32", .prim (.vint 1))]] = .arr xs3 ∧
      xs3.length = ([] : List Msg).length + 1)) := by
  have h := fill_c10_append_count (fill_message_slots evalStd envStd 4)
    (messageClassDefault envStd 4) "svc/items[0]" "svc/items" "Item[]"
    [("svc/items[0]/x", "1"), ("svc/items[0]/y", "2")]
    [("svc/items[0]/x", "1"), ("svc/items[0]/y", "2")] []
    [Msg.record "Item" [("x", "int32", .prim (.vint 1))]] [] [] true 1 3
    (.arr [Msg.record "Item" [("x", "int32", .prim (.vint 1))]]) []
  refine ⟨h.1 rfl, h.2 ?_ (by decide) rfl⟩
  intro j hj
  have hj0 : j = 0 := by omega
  subst hj0
  decide
